import Mathlib

/-!
Verification development for the linguist mixins (`src/linguist/mixins.py`).

The repository ships only `mixins.py` under `src/`; the helper modules it
imports (`cache.py` with `make_cache_key` and `CachedTranslation`, and
`models.py` with the `Translation` model and its manager) are not part of the
sources.  Those missing pieces are modelled from the spec, as documented on
each definition; everything else is a direct shallow embedding of the Python
code in `mixins.py`.
-/

namespace Linguist

/-- Translation record, from the spec data model: one row
`(identifier, object id, language, field name, field value)` per translated
field per language per object, persisted externally by a relational store. -/
structure TranslationRecord where
  identifier : String
  object_id : Nat
  language : String
  field_name : String
  field_value : String
deriving DecidableEq

/-- The external relational store of translation records, modelled as the list
of persisted rows. -/
abbrev Store := List TranslationRecord

/-- Errors the host ORM's single-record lookup can raise: the "record not
found" condition (`Translation.DoesNotExist`) and any other error, represented
here by the lookup matching more than one row. -/
inductive DbError where
  | doesNotExist
  | multipleObjectsReturned
deriving DecidableEq

/-- Modelled from the spec: the host ORM's get API (`Translation.objects.get`,
whose manager lives in `models.py`, not under `src/`).  It returns the unique
row matching the identifier, object id, language and field name, raises
"record not found" when no row matches, and raises a different error when the
match is not unique. -/
def ormGet (store : Store) (ident : String) (oid : Option Nat)
    (lang fname : String) : Except DbError TranslationRecord :=
  match store.filter (fun r =>
      decide (r.identifier = ident ∧ some r.object_id = oid ∧
        r.language = lang ∧ r.field_name = fname)) with
  | [] => .error .doesNotExist
  | [r] => .ok r
  | _ :: _ :: _ => .error .multipleObjectsReturned

/-- Cache keys: the spec describes the instance-local cache as a mapping from
(field name, language) pairs. -/
abbrev CacheKey := String × String

/-- Modelled from the spec: `make_cache_key` (defined in `cache.py`, not under
`src/`) applied to an instance, a language and a field name yields the
(field name, language) key.  `mixins.py` line 178 calls `get_cache_key`, whose
definition is also missing from `src/`; the spec knows a single cache key
notion, so it is modelled by this same function. -/
def make_cache_key (fname lang : String) : CacheKey := (fname, lang)

/-- Modelled from the spec: `make_cache_key` applied to an instance and a
fetched translation record keys the cache entry by the record's
(field name, language). -/
def record_cache_key (t : TranslationRecord) : CacheKey :=
  (t.field_name, t.language)

/-- How a cache entry was constructed: from a fetched persisted record, fresh
(the `translation=None` constructor argument), or from the `Translation`
class itself (the literal constructor argument on `mixins.py` line 38). -/
inductive CacheSource where
  | fromRecord (r : TranslationRecord)
  | fresh
  | fromClass
deriving DecidableEq

/-- Modelled from the spec: a `CachedTranslation` entry (defined in
`cache.py`, not under `src/`) carries the value cached for its key.  `source`
records which constructor argument built it, and `edited` is a ghost flag set
exactly when the Python code assigns `field_value` on the entry
(`mixins.py` lines 154 and 166), i.e. when the entry holds a pending edit. -/
structure CachedTranslation where
  source : CacheSource
  field_value : Option String
  edited : Bool
deriving DecidableEq

/-- Modelled from the spec: `CachedTranslation(instance=..., translation=obj)`
with `obj` a fetched record or `None`.  From a record, the entry mirrors the
record's field value. -/
def mkCachedTranslation : Option TranslationRecord → CachedTranslation
  | some r => ⟨.fromRecord r, some r.field_value, false⟩
  | none => ⟨.fresh, none, false⟩

/-- The entry built on `mixins.py` lines 36-39, whose `translation` argument
is the `Translation` class itself rather than the fetched record. -/
def classEntry : CachedTranslation := ⟨.fromClass, none, false⟩

/-- A dictionary from cache keys to cached translations, modelled as an
association list with Python-dict update semantics. -/
abbrev CacheMap := List (CacheKey × CachedTranslation)

/-- Python `d.get(k)` / `k in d`: the value at the first matching key. -/
def dictGet : CacheMap → CacheKey → Option CachedTranslation
  | [], _ => none
  | p :: rest, k => if p.1 = k then some p.2 else dictGet rest k

/-- Python `k in d`. -/
def dictHasKey : CacheMap → CacheKey → Bool
  | [], _ => false
  | p :: rest, k => if p.1 = k then true else dictHasKey rest k

/-- Python `d[k] = v`: replace the value at an existing key in place,
otherwise append the new binding at the end. -/
def dictSet : CacheMap → CacheKey → CachedTranslation → CacheMap
  | [], k, v => [(k, v)]
  | p :: rest, k, v => if p.1 = k then (k, v) :: rest else p :: dictSet rest k v

/-- The keys of a cache map, in order. -/
def cacheKeys (m : CacheMap) : List CacheKey := m.map Prod.fst

/-- Modelled from the spec: the per-instance `_linguist` object (its class is
not under `src/`).  Besides the identifier, current language, default
language and translatable fields, it carries the instance-local translation
cache `translations` (used by `mixins.py` lines 114, 120, 150, 154, 167, 184,
185, 198) and, as a distinct attribute, the mapping `translation` that
`mixins.py` line 40 assigns into. -/
structure LinguistMeta where
  identifier : String
  language : String
  default_language : String
  fields : List String
  translations : CacheMap
  translation : CacheMap
deriving DecidableEq

/-- A model instance: its primary key (`None` before the first save) and its
`_linguist` object. -/
structure Instance where
  pk : Option Nat
  _linguist : LinguistMeta
deriving DecidableEq

/-- `linguist_identifier` property (`mixins.py` lines 55-60). -/
def linguist_identifier (inst : Instance) : String := inst._linguist.identifier

/-- `language` property getter (`mixins.py` lines 62-67). -/
def language (inst : Instance) : String := inst._linguist.language

/-- `language` property setter (`mixins.py` lines 69-74). -/
def set_language (inst : Instance) (value : String) : Instance :=
  { inst with _linguist := { inst._linguist with language := value } }

/-- `default_language` property getter (`mixins.py` lines 76-81). -/
def default_language (inst : Instance) : String :=
  inst._linguist.default_language

/-- `default_language` property setter (`mixins.py` lines 83-89): it assigns
`self.language = value` and then sets the default language. -/
def set_default_language (inst : Instance) (value : String) : Instance :=
  let inst1 := set_language inst value
  { inst1 with _linguist := { inst1._linguist with default_language := value } }

/-- `cached_translations_count` property (`mixins.py` lines 109-114). -/
def cached_translations_count (inst : Instance) : Nat :=
  inst._linguist.translations.length

/-- `clear_translations_cache` (`mixins.py` lines 116-120). -/
def clear_translations_cache (inst : Instance) : Instance :=
  { inst with _linguist := { inst._linguist with translations := [] } }

/-- The lookups dictionary built by `_get_translation_lookups`
(`mixins.py` lines 11-26). -/
structure Lookups where
  identifier : String
  object_id : Option Nat
  field_name__in : Option (List String)
  language__in : Option (List String)
deriving DecidableEq

/-- `_get_translation_lookups` (`mixins.py` lines 11-26): always restricts on
the instance's linguist identifier and primary key, and adds the field-name
and language restrictions only when they are provided. -/
def _get_translation_lookups (inst : Instance)
    (fields languages : Option (List String)) : Lookups :=
  { identifier := linguist_identifier inst
    object_id := inst.pk
    field_name__in := fields
    language__in := languages }

/-- Modelled from the spec: `Translation.objects.filter(**lookups)` (manager
in `models.py`, not under `src/`) returns the rows matching every lookup; an
absent `__in` restriction matches every row. -/
def translationFilter (store : Store) (l : Lookups) : List TranslationRecord :=
  store.filter (fun r =>
    decide (r.identifier = l.identifier) &&
    decide (some r.object_id = l.object_id) &&
    (match l.field_name__in with
     | none => true
     | some fs => fs.contains r.field_name) &&
    (match l.language__in with
     | none => true
     | some ls => ls.contains r.language))

/-- `_set_instance_cache` (`mixins.py` lines 28-41).  For each fetched
translation it computes the record's cache key; the membership test
`cache_key not in instance._linguist` on line 35 is modelled, from the spec's
single cache-key mapping, as membership in the instance cache; when the key
is absent it assigns `CachedTranslation(instance=instance,
translation=Translation)` — the `Translation` class, not the fetched record —
into the attribute `instance._linguist.translation` (line 40), which is a
distinct attribute from the `translations` cache used everywhere else in
`mixins.py`. -/
def _set_instance_cache (inst : Instance)
    (translations : List TranslationRecord) : Instance :=
  translations.foldl
    (fun i t =>
      let cache_key := record_cache_key t
      if dictHasKey i._linguist.translations cache_key then i
      else
        { i with _linguist := { i._linguist with
            translation := dictSet i._linguist.translation cache_key classEntry } })
    inst

/-- `with_translations` (`mixins.py` lines 43-50): for each instance of the
queryset it filters the translation rows through the lookups and runs
`_set_instance_cache`.  The function body has no `return` statement, so the
value handed back to the caller — the second component — is Python's `None`;
the first component is the queryset with the per-instance side effects
applied. -/
def with_translations (store : Store) (queryset : List Instance)
    (fields languages : Option (List String)) :
    List Instance × Option (List Instance) :=
  (queryset.map (fun inst =>
      _set_instance_cache inst
        (translationFilter store (_get_translation_lookups inst fields languages))),
   none)

/-- The guarded fetch shared by `_cache_translation` (`mixins.py` lines
157-163) and `_get_translated_value` (lines 187-193): `obj = None`, then
`try: obj = Translation.objects.get(**attrs) except Translation.DoesNotExist:
pass`.  The name `attrs` is not defined in `mixins.py`; modelled from the
spec, the lookup attributes of the unique backing record are the instance's
identifier and primary key together with the language and field name.  Only
the "record not found" error is swallowed; any other lookup error
propagates. -/
def fetchBackingRecord (store : Store) (inst : Instance)
    (lang fname : String) : Except DbError (Option TranslationRecord) :=
  match ormGet store (linguist_identifier inst) inst.pk lang fname with
  | .ok r => .ok (some r)
  | .error .doesNotExist => .ok none
  | .error e => .error e

/-- `_cache_translation` (`mixins.py` lines 136-167).  When the key is cached
it assigns the entry's `field_value` in place (line 154).  Otherwise, for a
persisted instance it fetches the backing record with the "record not found"
error swallowed, builds `CachedTranslation(instance=self, translation=obj)`,
assigns the pending value on it (line 166) and stores it under the key. -/
def _cache_translation (store : Store) (inst : Instance)
    (lang fname value : String) : Except DbError Instance :=
  let is_new := inst.pk.isNone
  let cache_key := make_cache_key fname lang
  match dictGet inst._linguist.translations cache_key with
  | some cached =>
      .ok { inst with _linguist := { inst._linguist with
        translations := dictSet inst._linguist.translations cache_key
          { cached with field_value := some value, edited := true } } }
  | none =>
      match (if is_new then Except.ok none else fetchBackingRecord store inst lang fname) with
      | .error e => .error e
      | .ok obj =>
          let cached_obj := { mkCachedTranslation obj with
            field_value := some value, edited := true }
          .ok { inst with _linguist := { inst._linguist with
            translations := dictSet inst._linguist.translations cache_key cached_obj } }

/-- `_get_translated_value` (`mixins.py` lines 169-204).  A cached key
returns the cached entry's field value unchanged.  Otherwise, for a persisted
instance it fetches the backing record ("record not found" swallowed); when a
record was found it stores `CachedTranslation(instance=self, translation=obj)`
under the key — the dangling assignment target `cached_translation =` on line
197 is read together with line 198 as a chained assignment — and returns the
record's field value; otherwise it returns `None`. -/
def _get_translated_value (store : Store) (inst : Instance)
    (lang fname : String) : Except DbError (Option String × Instance) :=
  let is_new := inst.pk.isNone
  let cache_key := make_cache_key fname lang
  match dictGet inst._linguist.translations cache_key with
  | some cached => .ok (cached.field_value, inst)
  | none =>
      match (if is_new then Except.ok none else fetchBackingRecord store inst lang fname) with
      | .error e => .error e
      | .ok obj =>
          match obj with
          | some o =>
              .ok (some o.field_value,
                { inst with _linguist := { inst._linguist with
                    translations := dictSet inst._linguist.translations cache_key
                      (mkCachedTranslation (some o)) } })
          | none => .ok (none, inst)

/-- The two persistence steps of `ModelMixin.save` (`mixins.py` lines
206-213), in the order they run. -/
inductive SaveStep where
  | hostSave
  | saveTranslations
deriving DecidableEq

/-- `super(ModelMixin, self).save(...)`: the host framework's save assigns a
primary key to a new instance and keeps an existing one. -/
def djangoSave (inst : Instance) (newPk : Nat) : Instance :=
  { inst with pk := some (inst.pk.getD newPk) }

/-- Replace the row with the same (identifier, object id, language, field
name) key, or append a new row. -/
def upsertRecord (store : Store) (r : TranslationRecord) : Store :=
  if store.any (fun q => decide (q.identifier = r.identifier ∧
      q.object_id = r.object_id ∧ q.language = r.language ∧
      q.field_name = r.field_name)) then
    store.map (fun q => if q.identifier = r.identifier ∧
        q.object_id = r.object_id ∧ q.language = r.language ∧
        q.field_name = r.field_name then r else q)
  else store ++ [r]

/-- Modelled from the spec: `Translation.objects.save_translation(self)`
(manager in `models.py`, not under `src/`) persists the instance's cached
translations that carry a value into the store. -/
def save_translation (store : Store) (inst : Instance) : Store :=
  inst._linguist.translations.foldl
    (fun s p =>
      match p.2.field_value with
      | some v =>
          upsertRecord s
            { identifier := linguist_identifier inst
              object_id := inst.pk.getD 0
              language := p.1.2
              field_name := p.1.1
              field_value := v }
      | none => s)
    store

/-- `ModelMixin.save` (`mixins.py` lines 206-213): first the host save, then
`Translation.objects.save_translation(self)` on the saved instance.  The
third component records the order in which the two steps ran. -/
def save (store : Store) (inst : Instance) (newPk : Nat) :
    Instance × Store × List SaveStep :=
  let inst1 := djangoSave inst newPk
  let store1 := save_translation store inst1
  (inst1, store1, [SaveStep.hostSave, SaveStep.saveTranslations])

/-! ### Concrete data for evaluating the prefetch path -/

/-- A persisted instance with an empty translation cache. -/
def demoInst : Instance :=
  { pk := some 1
    _linguist :=
      { identifier := "foo"
        language := "en"
        default_language := "en"
        fields := ["title"]
        translations := []
        translation := [] } }

/-- A translation row belonging to `demoInst`. -/
def demoRecord : TranslationRecord :=
  { identifier := "foo", object_id := 1, language := "en",
    field_name := "title", field_value := "Hello" }

/-- A store holding exactly the one translation row for `demoInst`. -/
def demoStore : Store := [demoRecord]

/-- A pending (edited) cache entry. -/
def demoEntry : CachedTranslation := ⟨CacheSource.fresh, some "Salut", true⟩

/-- `demoInst` with the pending entry `demoEntry` cached for the French
title. -/
def demoInst2 : Instance :=
  { demoInst with _linguist := { demoInst._linguist with
      translations := [(("title", "fr"), demoEntry)] } }

/-- A cache entry is valid when it is a pending unsaved edit — its
`field_value` was assigned through `_cache_translation`, recorded by the
ghost `edited` flag — or when it mirrors a translation record persisted in
the store for this instance and this (field name, language) key. -/
def entryValid (store : Store) (ident : String) (pk : Option Nat)
    (k : CacheKey) (e : CachedTranslation) : Prop :=
  e.edited = true ∨
  ∃ r, r ∈ store ∧ r.identifier = ident ∧ some r.object_id = pk ∧
    r.field_name = k.1 ∧ r.language = k.2 ∧
    e.source = CacheSource.fromRecord r ∧ e.field_value = some r.field_value

/-- Every entry of the instance's translation cache is valid. -/
def cacheValid (store : Store) (inst : Instance) : Prop :=
  ∀ p ∈ inst._linguist.translations,
    entryValid store (linguist_identifier inst) inst.pk p.1 p.2

/-! ### Helper lemmas about the dictionary model -/

theorem dictGet_eq_none_iff (m : CacheMap) (k : CacheKey) :
    dictGet m k = none ↔ dictHasKey m k = false := by
  induction m with
  | nil => simp [dictGet, dictHasKey]
  | cons p rest ih =>
      by_cases h : p.1 = k <;> simp [dictGet, dictHasKey, h, ih]

theorem mem_dictSet (m : CacheMap) (k : CacheKey) (v : CachedTranslation)
    (p : CacheKey × CachedTranslation) (hp : p ∈ dictSet m k v) :
    p = (k, v) ∨ p ∈ m := by
  induction m with
  | nil => simpa [dictSet] using hp
  | cons q rest ih =>
      by_cases h : q.1 = k
      · simp only [dictSet, if_pos h] at hp
        rcases List.mem_cons.mp hp with h1 | h1
        · exact Or.inl h1
        · exact Or.inr (List.mem_cons_of_mem q h1)
      · simp only [dictSet, if_neg h] at hp
        rcases List.mem_cons.mp hp with h1 | h1
        · exact Or.inr (h1 ▸ List.mem_cons_self q rest)
        · rcases ih h1 with h2 | h2
          · exact Or.inl h2
          · exact Or.inr (List.mem_cons_of_mem q h2)

theorem cacheKeys_dictSet_of_hasKey (m : CacheMap) (k : CacheKey)
    (v : CachedTranslation) (h : dictHasKey m k = true) :
    cacheKeys (dictSet m k v) = cacheKeys m := by
  induction m with
  | nil => simp [dictHasKey] at h
  | cons q rest ih =>
      by_cases hq : q.1 = k
      · simp [dictSet, cacheKeys, hq]
      · simp only [dictHasKey, if_neg hq] at h
        simp [dictSet, cacheKeys, hq, ih h]
        exact ih h

theorem cacheKeys_dictSet_of_not_hasKey (m : CacheMap) (k : CacheKey)
    (v : CachedTranslation) (h : dictHasKey m k = false) :
    cacheKeys (dictSet m k v) = cacheKeys m ++ [k] := by
  induction m with
  | nil => simp [dictSet, cacheKeys]
  | cons q rest ih =>
      by_cases hq : q.1 = k
      · simp [dictHasKey, hq] at h
      · simp only [dictHasKey, if_neg hq] at h
        simp [dictSet, cacheKeys, hq] at ih ⊢
        exact ih h

theorem cacheKeys_cons (q : CacheKey × CachedTranslation) (rest : CacheMap) :
    cacheKeys (q :: rest) = q.1 :: cacheKeys rest := rfl

theorem hasKey_iff_mem_cacheKeys (m : CacheMap) (k : CacheKey) :
    dictHasKey m k = true ↔ k ∈ cacheKeys m := by
  induction m with
  | nil => simp [dictHasKey, cacheKeys]
  | cons q rest ih =>
      rw [cacheKeys_cons, List.mem_cons]
      by_cases hq : q.1 = k
      · simp [dictHasKey, hq]
      · simp only [dictHasKey, if_neg hq]
        rw [ih]
        constructor
        · exact Or.inr
        · rintro (h | h)
          · exact absurd h.symm hq
          · exact h

theorem nodup_cacheKeys_dictSet (m : CacheMap) (k : CacheKey)
    (v : CachedTranslation) (h : (cacheKeys m).Nodup) :
    (cacheKeys (dictSet m k v)).Nodup := by
  cases hk : dictHasKey m k with
  | true => rw [cacheKeys_dictSet_of_hasKey m k v hk]; exact h
  | false =>
      rw [cacheKeys_dictSet_of_not_hasKey m k v hk]
      have hnot : k ∉ cacheKeys m := by
        intro hmem
        rw [← hasKey_iff_mem_cacheKeys] at hmem
        rw [hk] at hmem
        exact Bool.false_ne_true hmem
      simp [List.nodup_append, h, hnot]

/-! ### Shape lemmas for the cache-writing operations -/

theorem hasKey_of_dictGet_some (m : CacheMap) (k : CacheKey)
    (e : CachedTranslation) (h : dictGet m k = some e) :
    dictHasKey m k = true := by
  cases hx : dictHasKey m k with
  | false =>
      rw [(dictGet_eq_none_iff m k).mpr hx] at h
      exact absurd h (by simp)
  | true => rfl

theorem cache_translation_ok_shape (store : Store) (inst : Instance)
    (lang fname value : String) (inst2 : Instance)
    (h : _cache_translation store inst lang fname value = .ok inst2) :
    ∃ ce : CachedTranslation,
      inst2 = { inst with _linguist := { inst._linguist with
        translations := dictSet inst._linguist.translations
          (make_cache_key fname lang) ce } } := by
  cases hc : dictGet inst._linguist.translations (make_cache_key fname lang) with
  | some cached =>
      have heq : _cache_translation store inst lang fname value =
          .ok { inst with _linguist := { inst._linguist with
            translations := dictSet inst._linguist.translations
              (make_cache_key fname lang)
              { cached with field_value := some value, edited := true } } } := by
        simp [_cache_translation, hc]
      rw [heq] at h
      injection h with h2
      exact ⟨_, h2.symm⟩
  | none =>
      cases hn : inst.pk with
      | none =>
          have heq : _cache_translation store inst lang fname value =
              .ok { inst with _linguist := { inst._linguist with
                translations := dictSet inst._linguist.translations
                  (make_cache_key fname lang)
                  ⟨CacheSource.fresh, some value, true⟩ } } := by
            simp [_cache_translation, hc, hn, mkCachedTranslation]
          rw [heq] at h
          injection h with h2
          rw [hn] at h2
          exact ⟨_, h2.symm⟩
      | some n =>
          cases hf : fetchBackingRecord store inst lang fname with
          | error e =>
              have heq : _cache_translation store inst lang fname value = .error e := by
                simp [_cache_translation, hc, hn, hf]
              rw [heq] at h
              exact absurd h (by simp)
          | ok obj =>
              have heq : _cache_translation store inst lang fname value =
                  .ok { inst with _linguist := { inst._linguist with
                    translations := dictSet inst._linguist.translations
                      (make_cache_key fname lang)
                      { mkCachedTranslation obj with
                        field_value := some value, edited := true } } } := by
                simp [_cache_translation, hc, hn, hf]
              rw [heq] at h
              injection h with h2
              rw [hn] at h2
              exact ⟨_, h2.symm⟩

theorem get_translated_value_ok_shape (store : Store) (inst : Instance)
    (lang fname : String) (v : Option String) (inst2 : Instance)
    (h : _get_translated_value store inst lang fname = .ok (v, inst2)) :
    inst2 = inst ∨
    ∃ ce : CachedTranslation,
      inst2 = { inst with _linguist := { inst._linguist with
        translations := dictSet inst._linguist.translations
          (make_cache_key fname lang) ce } } := by
  cases hc : dictGet inst._linguist.translations (make_cache_key fname lang) with
  | some cached =>
      have heq : _get_translated_value store inst lang fname =
          .ok (cached.field_value, inst) := by
        simp [_get_translated_value, hc]
      rw [heq] at h
      injection h with h2
      exact Or.inl (congrArg Prod.snd h2).symm
  | none =>
      cases hn : inst.pk with
      | none =>
          have heq : _get_translated_value store inst lang fname = .ok (none, inst) := by
            simp [_get_translated_value, hc, hn]
          rw [heq] at h
          injection h with h2
          exact Or.inl (congrArg Prod.snd h2).symm
      | some n =>
          cases hf : fetchBackingRecord store inst lang fname with
          | error e =>
              have heq : _get_translated_value store inst lang fname = .error e := by
                simp [_get_translated_value, hc, hn, hf]
              rw [heq] at h
              exact absurd h (by simp)
          | ok obj =>
              cases obj with
              | none =>
                  have heq : _get_translated_value store inst lang fname =
                      .ok (none, inst) := by
                    simp [_get_translated_value, hc, hn, hf]
                  rw [heq] at h
                  injection h with h2
                  exact Or.inl (congrArg Prod.snd h2).symm
              | some o =>
                  have heq : _get_translated_value store inst lang fname =
                      .ok (some o.field_value,
                        { inst with _linguist := { inst._linguist with
                          translations := dictSet inst._linguist.translations
                            (make_cache_key fname lang)
                            (mkCachedTranslation (some o)) } }) := by
                    simp [_get_translated_value, hc, hn, hf]
                  rw [heq] at h
                  injection h with h2
                  have h3 := (congrArg Prod.snd h2).symm
                  rw [hn] at h3
                  exact Or.inr ⟨_, h3⟩

/-! ### Helper lemmas about the modelled ORM and the mixin operations -/

theorem ormGet_ok_spec (store : Store) (ident : String) (oid : Option Nat)
    (lang fname : String) (r : TranslationRecord)
    (h : ormGet store ident oid lang fname = .ok r) :
    r ∈ store ∧ r.identifier = ident ∧ some r.object_id = oid ∧
      r.language = lang ∧ r.field_name = fname := by
  unfold ormGet at h
  cases hf : store.filter (fun r =>
      decide (r.identifier = ident ∧ some r.object_id = oid ∧
        r.language = lang ∧ r.field_name = fname)) with
  | nil => rw [hf] at h; exact absurd h (by simp)
  | cons a t =>
      cases t with
      | nil =>
          rw [hf] at h
          have ha : a = r := by injection h
          subst ha
          have hmem : a ∈ store.filter (fun r =>
              decide (r.identifier = ident ∧ some r.object_id = oid ∧
                r.language = lang ∧ r.field_name = fname)) := by
            rw [hf]; exact List.mem_singleton_self a
          have hsp := List.mem_filter.mp hmem
          exact ⟨hsp.1, of_decide_eq_true hsp.2⟩
      | cons b t2 => rw [hf] at h; exact absurd h (by simp)

theorem fetchBackingRecord_ok_some (store : Store) (inst : Instance)
    (lang fname : String) (o : TranslationRecord)
    (h : fetchBackingRecord store inst lang fname = .ok (some o)) :
    ormGet store (linguist_identifier inst) inst.pk lang fname = .ok o := by
  unfold fetchBackingRecord at h
  cases hg : ormGet store (linguist_identifier inst) inst.pk lang fname with
  | ok r => rw [hg] at h; simp only [Except.ok.injEq, Option.some.injEq] at h; rw [h]
  | error e =>
      rw [hg] at h
      cases e <;> simp at h

theorem set_instance_cache_spec (ts : List TranslationRecord) (i : Instance) :
    (_set_instance_cache i ts)._linguist.translations = i._linguist.translations ∧
    (_set_instance_cache i ts).pk = i.pk ∧
    (_set_instance_cache i ts)._linguist.identifier = i._linguist.identifier ∧
    ∀ p ∈ (_set_instance_cache i ts)._linguist.translation,
      p ∈ i._linguist.translation ∨ dictGet i._linguist.translations p.1 = none := by
  induction ts generalizing i with
  | nil =>
      refine ⟨rfl, rfl, rfl, fun p hp => Or.inl hp⟩
  | cons t ts ih =>
      by_cases h : dictHasKey i._linguist.translations (record_cache_key t) = true
      · have hstep : _set_instance_cache i (t :: ts) = _set_instance_cache i ts := by
          simp [_set_instance_cache, h]
        rw [hstep]
        exact ih i
      · have hb : dictHasKey i._linguist.translations (record_cache_key t) = false :=
          Bool.eq_false_iff.mpr h
        set i2 : Instance :=
          { i with _linguist := { i._linguist with
              translation := dictSet i._linguist.translation (record_cache_key t) classEntry } }
          with hi2
        have hstep : _set_instance_cache i (t :: ts) = _set_instance_cache i2 ts := by
          simp [_set_instance_cache, hb, hi2]
        rw [hstep]
        obtain ⟨h1, h2, h3, h4⟩ := ih i2
        refine ⟨h1, h2, h3, fun p hp => ?_⟩
        rcases h4 p hp with hmem | hnone
        · rcases mem_dictSet _ _ _ p hmem with hpe | hpm
          · right
            rw [hpe]
            exact (dictGet_eq_none_iff _ _).mpr hb
          · exact Or.inl hpm
        · exact Or.inr hnone

/-- C1: the claim says `with_translations` populates each instance's
translation cache with an entry for every fetched translation record, keyed
by (field name, language).  Evaluating the code on a store holding exactly
one matching row for a persisted instance with an empty cache refutes this:
after `with_translations` the instance's translation cache is still empty —
`cached_translations_count` is `0` and the fetched record's key is absent —
because `mixins.py` line 40 stores the prefetched entry into the distinct
attribute `_linguist.translation` (and builds it from the `Translation` class
rather than the fetched record), where no read, count or clear operation ever
looks. -/
theorem c1_with_translations_leaves_cache_empty :
    cached_translations_count
      (((with_translations demoStore [demoInst] none none).1).headD demoInst) = 0 ∧
    dictGet
      (((with_translations demoStore [demoInst] none none).1).headD demoInst)._linguist.translations
      ("title", "en") = none ∧
    (((with_translations demoStore [demoInst] none none).1).headD demoInst)._linguist.translation
      = [(("title", "en"), classEntry)] := by
  decide

/-- C5: `save` runs the host framework's save first and the translation
persistence second: the recorded step order is host save before translation
save, the translations are persisted from the already-saved instance (the
result of `djangoSave`), and that instance has its primary key set. -/
theorem c5_save_persists_host_before_translations
    (store : Store) (inst : Instance) (newPk : Nat) :
    (save store inst newPk).2.2 = [SaveStep.hostSave, SaveStep.saveTranslations] ∧
    (save store inst newPk).2.1 = save_translation store (djangoSave inst newPk) ∧
    ((djangoSave inst newPk).pk).isSome = true := by
  refine ⟨rfl, rfl, ?_⟩
  cases h : inst.pk <;> simp [djangoSave, h]

/-- C6: after `clear_translations_cache` the instance's translation cache is
empty: `cached_translations_count` returns `0` and no key has an entry. -/
theorem c6_clear_translations_cache_empties_cache (inst : Instance) :
    cached_translations_count (clear_translations_cache inst) = 0 ∧
    ∀ k : CacheKey,
      dictGet (clear_translations_cache inst)._linguist.translations k = none := by
  exact ⟨rfl, fun k => rfl⟩

/-- C9: `with_translations` has no `return` statement, so the value it hands
back to the caller is `None` for every store, queryset and restriction. -/
theorem c9_with_translations_returns_none (store : Store)
    (queryset : List Instance) (fields languages : Option (List String)) :
    (with_translations store queryset fields languages).2 = none := rfl

/-- C10: the `default_language` setter assigns `self.language = value` before
recording the default, so immediately afterwards both the `language` property
and the `default_language` property return the assigned value. -/
theorem c10_default_language_setter_sets_language
    (inst : Instance) (value : String) :
    language (set_default_language inst value) = value ∧
    default_language (set_default_language inst value) = value :=
  ⟨rfl, rfl⟩

/-- C2: for a persisted instance and an uncached (language, field name) key,
when the store lookup reports "record not found" both `_get_translated_value`
and `_cache_translation` swallow the error — the read returns `None` and the
write installs a fresh pending cache entry — while any other lookup error
propagates to the caller unchanged from both operations. -/
theorem c2_record_not_found_swallowed_other_errors_propagate
    (store : Store) (inst : Instance) (lang fname value : String)
    (hpk : inst.pk.isSome = true)
    (hkey : dictGet inst._linguist.translations (make_cache_key fname lang) = none) :
    (ormGet store (linguist_identifier inst) inst.pk lang fname =
        .error DbError.doesNotExist →
      _get_translated_value store inst lang fname = .ok (none, inst) ∧
      _cache_translation store inst lang fname value =
        .ok { inst with _linguist := { inst._linguist with
          translations := dictSet inst._linguist.translations
            (make_cache_key fname lang)
            ⟨CacheSource.fresh, some value, true⟩ } }) ∧
    (∀ e, e ≠ DbError.doesNotExist →
      ormGet store (linguist_identifier inst) inst.pk lang fname = .error e →
      _get_translated_value store inst lang fname = .error e ∧
      _cache_translation store inst lang fname value = .error e) := by
  obtain ⟨n, hn⟩ := Option.isSome_iff_exists.mp hpk
  constructor
  · intro horm
    have hfetch : fetchBackingRecord store inst lang fname = .ok none := by
      unfold fetchBackingRecord
      rw [horm]
    constructor
    · simp [_get_translated_value, hkey, hn, hfetch]
    · simp [_cache_translation, hkey, hn, hfetch, mkCachedTranslation]
  · intro e he horm
    have hfetch : fetchBackingRecord store inst lang fname = .error e := by
      unfold fetchBackingRecord
      rw [horm]
      cases e with
      | doesNotExist => exact absurd rfl he
      | multipleObjectsReturned => rfl
    constructor
    · simp [_get_translated_value, hkey, hn, hfetch]
    · simp [_cache_translation, hkey, hn, hfetch]

/-- C2 witness: on the concrete store `demoStore` and persisted instance
`demoInst` with an empty cache, the hypotheses hold and the conclusion is
obtained by applying the theorem. -/
theorem c2_record_not_found_swallowed_witness :
    (demoInst.pk.isSome = true) ∧
    (dictGet demoInst._linguist.translations (make_cache_key "body" "en") = none) ∧
    ((ormGet demoStore (linguist_identifier demoInst) demoInst.pk "en" "body" =
        .error DbError.doesNotExist →
      _get_translated_value demoStore demoInst "en" "body" = .ok (none, demoInst) ∧
      _cache_translation demoStore demoInst "en" "body" "Hi" =
        .ok { demoInst with _linguist := { demoInst._linguist with
          translations := dictSet demoInst._linguist.translations
            (make_cache_key "body" "en")
            ⟨CacheSource.fresh, some "Hi", true⟩ } }) ∧
    (∀ e, e ≠ DbError.doesNotExist →
      ormGet demoStore (linguist_identifier demoInst) demoInst.pk "en" "body" = .error e →
      _get_translated_value demoStore demoInst "en" "body" = .error e ∧
      _cache_translation demoStore demoInst "en" "body" "Hi" = .error e)) :=
  ⟨by decide, by decide,
   c2_record_not_found_swallowed_other_errors_propagate demoStore demoInst
     "en" "body" "Hi" (by decide) (by decide)⟩

/-- C3: `_get_translated_value` on a cached (field name, language) key
returns the cached field value with the instance unchanged, for every store
(so without consulting the store); on an uncached key of a persisted
instance whose record the store lookup returns, it returns the record's
field value and caches an entry for the record under the key. -/
theorem c3_get_translated_value_lazy_read
    (store : Store) (inst : Instance) (lang fname : String) :
    (∀ e, dictGet inst._linguist.translations (make_cache_key fname lang) = some e →
      _get_translated_value store inst lang fname = .ok (e.field_value, inst)) ∧
    (∀ r, dictGet inst._linguist.translations (make_cache_key fname lang) = none →
      inst.pk.isSome = true →
      ormGet store (linguist_identifier inst) inst.pk lang fname = .ok r →
      _get_translated_value store inst lang fname =
        .ok (some r.field_value,
          { inst with _linguist := { inst._linguist with
              translations := dictSet inst._linguist.translations
                (make_cache_key fname lang) (mkCachedTranslation (some r)) } })) := by
  constructor
  · intro e he
    simp [_get_translated_value, he]
  · intro r hkey hpk horm
    obtain ⟨n, hn⟩ := Option.isSome_iff_exists.mp hpk
    have hfetch : fetchBackingRecord store inst lang fname = .ok (some r) := by
      unfold fetchBackingRecord
      rw [horm]
    simp [_get_translated_value, hkey, hn, hfetch]

/-- C3 witness: the cached branch on `demoInst2` (whose French title holds
the pending entry `demoEntry`) and the fetching branch on `demoInst` against
`demoStore`, both by applying the theorem at these concrete inputs. -/
theorem c3_get_translated_value_lazy_read_witness :
    (dictGet demoInst2._linguist.translations (make_cache_key "title" "fr") =
      some demoEntry) ∧
    (dictGet demoInst._linguist.translations (make_cache_key "title" "en") = none) ∧
    (demoInst.pk.isSome = true) ∧
    (ormGet demoStore (linguist_identifier demoInst) demoInst.pk "en" "title" =
      Except.ok demoRecord) ∧
    _get_translated_value demoStore demoInst2 "fr" "title" =
      .ok (demoEntry.field_value, demoInst2) ∧
    _get_translated_value demoStore demoInst "en" "title" =
      .ok (some demoRecord.field_value,
        { demoInst with _linguist := { demoInst._linguist with
            translations := dictSet demoInst._linguist.translations
              (make_cache_key "title" "en") (mkCachedTranslation (some demoRecord)) } }) :=
  ⟨by decide, by decide, by decide, by rfl,
   (c3_get_translated_value_lazy_read demoStore demoInst2 "fr" "title").1
     demoEntry (by decide),
   (c3_get_translated_value_lazy_read demoStore demoInst "en" "title").2
     demoRecord (by decide) (by decide) (by rfl)⟩

/-- C8: `_set_instance_cache` leaves every pre-existing entry of the
instance's translation cache unchanged — the whole cache is preserved, so
unsaved pending edits survive a bulk prefetch — and every binding it adds
(into the `_linguist.translation` attribute it assigns) is for a key that
was not already cached. -/
theorem c8_set_instance_cache_preserves_existing_cache
    (inst : Instance) (ts : List TranslationRecord) :
    (_set_instance_cache inst ts)._linguist.translations =
      inst._linguist.translations ∧
    ∀ p ∈ (_set_instance_cache inst ts)._linguist.translation,
      p ∈ inst._linguist.translation ∨
        dictGet inst._linguist.translations p.1 = none := by
  obtain ⟨h1, _, _, h4⟩ := set_instance_cache_spec ts inst
  exact ⟨h1, h4⟩

/-- C8 witness: the frame property applied at `demoInst2` and the fetched
row `demoRecord`. -/
theorem c8_set_instance_cache_preserves_existing_cache_witness :
    (_set_instance_cache demoInst2 [demoRecord])._linguist.translations =
      demoInst2._linguist.translations ∧
    ∀ p ∈ (_set_instance_cache demoInst2 [demoRecord])._linguist.translation,
      p ∈ demoInst2._linguist.translation ∨
        dictGet demoInst2._linguist.translations p.1 = none :=
  c8_set_instance_cache_preserves_existing_cache demoInst2 [demoRecord]

/-- C4: every cache-mutating operation preserves the invariant that each
entry of the instance's translation cache is either a pending unsaved edit
introduced through `_cache_translation` (its `field_value` was assigned
there, recorded by the ghost `edited` flag) or mirrors a translation record
persisted in the store for this instance and key.  `_set_instance_cache`
never writes into the `translations` cache at all, so it preserves the
invariant trivially. -/
theorem c4_cache_contents_persisted_or_pending
    (store : Store) (inst : Instance) (lang fname value : String)
    (ts : List TranslationRecord)
    (h : cacheValid store inst) :
    (∀ inst2, _cache_translation store inst lang fname value = .ok inst2 →
      cacheValid store inst2) ∧
    (∀ v inst2, _get_translated_value store inst lang fname = .ok (v, inst2) →
      cacheValid store inst2) ∧
    cacheValid store (_set_instance_cache inst ts) := by
  refine ⟨?_, ?_, ?_⟩
  · intro inst2 hok
    cases hc : dictGet inst._linguist.translations (make_cache_key fname lang) with
    | some cached =>
        have heq : _cache_translation store inst lang fname value =
            .ok { inst with _linguist := { inst._linguist with
              translations := dictSet inst._linguist.translations
                (make_cache_key fname lang)
                { cached with field_value := some value, edited := true } } } := by
          simp [_cache_translation, hc]
        rw [heq] at hok
        injection hok with h2
        subst h2
        intro p hp
        rcases mem_dictSet _ _ _ p hp with hpe | hpm
        · rw [hpe]
          exact Or.inl rfl
        · exact h p hpm
    | none =>
        cases hn : inst.pk with
        | none =>
            have heq : _cache_translation store inst lang fname value =
                .ok { inst with _linguist := { inst._linguist with
                  translations := dictSet inst._linguist.translations
                    (make_cache_key fname lang)
                    ⟨CacheSource.fresh, some value, true⟩ } } := by
              simp [_cache_translation, hc, hn, mkCachedTranslation]
            rw [heq] at hok
            injection hok with h2
            subst h2
            intro p hp
            rcases mem_dictSet _ _ _ p hp with hpe | hpm
            · rw [hpe]
              exact Or.inl rfl
            · exact h p hpm
        | some n =>
            cases hf : fetchBackingRecord store inst lang fname with
            | error e =>
                have heq : _cache_translation store inst lang fname value = .error e := by
                  simp [_cache_translation, hc, hn, hf]
                rw [heq] at hok
                exact absurd hok (by simp)
            | ok obj =>
                have heq : _cache_translation store inst lang fname value =
                    .ok { inst with _linguist := { inst._linguist with
                      translations := dictSet inst._linguist.translations
                        (make_cache_key fname lang)
                        { mkCachedTranslation obj with
                          field_value := some value, edited := true } } } := by
                  simp [_cache_translation, hc, hn, hf]
                rw [heq] at hok
                injection hok with h2
                subst h2
                intro p hp
                rcases mem_dictSet _ _ _ p hp with hpe | hpm
                · rw [hpe]
                  exact Or.inl rfl
                · exact h p hpm
  · intro v inst2 hok
    cases hc : dictGet inst._linguist.translations (make_cache_key fname lang) with
    | some cached =>
        have heq : _get_translated_value store inst lang fname =
            .ok (cached.field_value, inst) := by
          simp [_get_translated_value, hc]
        rw [heq] at hok
        injection hok with h2
        have h3 : inst = inst2 := congrArg Prod.snd h2
        rw [← h3]
        exact h
    | none =>
        cases hn : inst.pk with
        | none =>
            have heq : _get_translated_value store inst lang fname = .ok (none, inst) := by
              simp [_get_translated_value, hc, hn]
            rw [heq] at hok
            injection hok with h2
            have h3 : inst = inst2 := congrArg Prod.snd h2
            rw [← h3]
            exact h
        | some n =>
            cases hf : fetchBackingRecord store inst lang fname with
            | error e =>
                have heq : _get_translated_value store inst lang fname = .error e := by
                  simp [_get_translated_value, hc, hn, hf]
                rw [heq] at hok
                exact absurd hok (by simp)
            | ok obj =>
                cases obj with
                | none =>
                    have heq : _get_translated_value store inst lang fname =
                        .ok (none, inst) := by
                      simp [_get_translated_value, hc, hn, hf]
                    rw [heq] at hok
                    injection hok with h2
                    have h3 : inst = inst2 := congrArg Prod.snd h2
                    rw [← h3]
                    exact h
                | some o =>
                    have horm := fetchBackingRecord_ok_some store inst lang fname o hf
                    obtain ⟨hmem, hid, hoid, hlang, hfname⟩ :=
                      ormGet_ok_spec store (linguist_identifier inst) inst.pk
                        lang fname o horm
                    have heq : _get_translated_value store inst lang fname =
                        .ok (some o.field_value,
                          { inst with _linguist := { inst._linguist with
                            translations := dictSet inst._linguist.translations
                              (make_cache_key fname lang)
                              (mkCachedTranslation (some o)) } }) := by
                      simp [_get_translated_value, hc, hn, hf]
                    rw [heq] at hok
                    injection hok with h2
                    have h3 := congrArg Prod.snd h2
                    subst h3
                    intro p hp
                    rcases mem_dictSet _ _ _ p hp with hpe | hpm
                    · rw [hpe]
                      exact Or.inr ⟨o, hmem, hid, hoid, hfname, hlang, rfl, rfl⟩
                    · exact h p hpm
  · obtain ⟨h1, h2, h3, _⟩ := set_instance_cache_spec ts inst
    intro p hp
    rw [h1] at hp
    have hv := h p hp
    unfold linguist_identifier at hv ⊢
    rw [h3, h2]
    exact hv

/-- C4 witness: the invariant holds for the persisted instance `demoInst`
with its empty cache against `demoStore`, and the theorem applied there
yields preservation for all three operations. -/
theorem c4_cache_contents_persisted_or_pending_witness :
    cacheValid demoStore demoInst ∧
    ((∀ inst2, _cache_translation demoStore demoInst "en" "title" "Hi" = .ok inst2 →
      cacheValid demoStore inst2) ∧
    (∀ v inst2,
      _get_translated_value demoStore demoInst "en" "title" = .ok (v, inst2) →
      cacheValid demoStore inst2) ∧
    cacheValid demoStore (_set_instance_cache demoInst [demoRecord])) :=
  ⟨fun p hp => absurd hp (List.not_mem_nil p),
   c4_cache_contents_persisted_or_pending demoStore demoInst "en" "title" "Hi"
     [demoRecord] (fun p hp => absurd hp (List.not_mem_nil p))⟩

/-- C7: each cache-mutating operation keeps at most one cache entry per
(field name, language) key — key lists without duplicates stay without
duplicates — and writing through `_cache_translation` to a key that already
has an entry updates it in place, leaving the key list unchanged rather than
adding a second entry. -/
theorem c7_at_most_one_entry_per_key
    (store : Store) (inst : Instance) (lang fname value : String)
    (ts : List TranslationRecord)
    (h : (cacheKeys inst._linguist.translations).Nodup) :
    (∀ inst2, _cache_translation store inst lang fname value = .ok inst2 →
      (cacheKeys inst2._linguist.translations).Nodup) ∧
    (∀ v inst2, _get_translated_value store inst lang fname = .ok (v, inst2) →
      (cacheKeys inst2._linguist.translations).Nodup) ∧
    (cacheKeys (_set_instance_cache inst ts)._linguist.translations).Nodup ∧
    (∀ e, dictGet inst._linguist.translations (make_cache_key fname lang) = some e →
      ∀ inst2, _cache_translation store inst lang fname value = .ok inst2 →
        cacheKeys inst2._linguist.translations =
          cacheKeys inst._linguist.translations) := by
  refine ⟨?_, ?_, ?_, ?_⟩
  · intro inst2 hok
    obtain ⟨ce, h2⟩ := cache_translation_ok_shape store inst lang fname value inst2 hok
    subst h2
    exact nodup_cacheKeys_dictSet _ _ _ h
  · intro v inst2 hok
    rcases get_translated_value_ok_shape store inst lang fname v inst2 hok with
      h2 | ⟨ce, h2⟩
    · subst h2
      exact h
    · subst h2
      exact nodup_cacheKeys_dictSet _ _ _ h
  · obtain ⟨h1, _, _, _⟩ := set_instance_cache_spec ts inst
    rw [h1]
    exact h
  · intro e he inst2 hok
    obtain ⟨ce, h2⟩ := cache_translation_ok_shape store inst lang fname value inst2 hok
    subst h2
    exact cacheKeys_dictSet_of_hasKey _ _ _ (hasKey_of_dictGet_some _ _ e he)

/-- C7 witness: `demoInst2` has a single-entry cache with duplicate-free
keys; the theorem applied there gives uniqueness preservation for all the
operations, including the in-place update of the already-cached French
title. -/
theorem c7_at_most_one_entry_per_key_witness :
    (cacheKeys demoInst2._linguist.translations).Nodup ∧
    ((∀ inst2,
      _cache_translation demoStore demoInst2 "fr" "title" "Bonjour" = .ok inst2 →
      (cacheKeys inst2._linguist.translations).Nodup) ∧
    (∀ v inst2,
      _get_translated_value demoStore demoInst2 "fr" "title" = .ok (v, inst2) →
      (cacheKeys inst2._linguist.translations).Nodup) ∧
    (cacheKeys (_set_instance_cache demoInst2 [demoRecord])._linguist.translations).Nodup ∧
    (∀ e, dictGet demoInst2._linguist.translations (make_cache_key "title" "fr") =
        some e →
      ∀ inst2,
        _cache_translation demoStore demoInst2 "fr" "title" "Bonjour" = .ok inst2 →
        cacheKeys inst2._linguist.translations =
          cacheKeys demoInst2._linguist.translations)) :=
  ⟨by decide,
   c7_at_most_one_entry_per_key demoStore demoInst2 "fr" "title" "Bonjour"
     [demoRecord] (by decide)⟩

end Linguist
